import Mathlib

/-!
Verification development for the triggered frame recorder scripts.

The definitions below are shallow embeddings of the Python sources:
  - `record_video` and `next_2p_name` from Heart_tracking_2.py,
  - the rising/falling edge detectors from closed_loop_dots_synced_stop.py
    (NIRiseOnlyTrigger.check_trigger, stop_on_fall),
  - `FLIRCameraController.stop_recording` from Heart_tracking_2p.py.

Camera interaction is modelled as a list of pull results (GetNextImage either
returns a complete frame, returns an incomplete frame, or raises a
SpinnakerException, i.e. a timeout).  The wall clock (time.time() - t0) and the
trigger-line reads (read_line_status, which may return None) are attached to
the loop iterations that observe them.  Filenames are lists of characters.
-/

namespace TwoP

/-- Result of one `cam.GetNextImage(timeout_ms)` call in record_video:
a complete frame, an incomplete frame (img.IsIncomplete()), or a
PySpin.SpinnakerException (timeout / grab issue). -/
inductive Pull
  | frame
  | incomplete
  | timeout
  deriving DecidableEq, Repr

/-- Observable file-writer actions performed by record_video:
opening the AVI recorder, recorder.Append(img), recorder.Close(). -/
inductive Action
  | openRec
  | append
  | close
  deriving DecidableEq, Repr

/-- Why the triggered RECORDING loop of record_video broke out:
LineStatus read LOW, the max_triggered_s safety cap was reached, or
3 consecutive frame-pull timeouts occurred after the stream started. -/
inductive StopReason
  | lineLow
  | safetyCap
  | timeouts
  deriving DecidableEq, Repr

/-- One iteration's worth of environment input for the triggered RECORDING
loop of record_video: `t` is the value of (time.time() - t0) at this
iteration's top-of-loop stop checks, `pull` is the GetNextImage outcome,
and `lineAfter` is what read_line_status returns when refreshed after the
pull (None when the camera does not expose LineStatus). -/
structure TrigStep where
  t : ℚ
  pull : Pull
  lineAfter : Option Bool
  deriving DecidableEq, Repr

/-- The safety-cap test of record_video:
`max_s is not None and (time.time() - t0) >= max_s`. -/
def capReached (maxS : Option ℚ) (t : ℚ) : Bool :=
  match maxS with
  | some m => decide (m ≤ t)
  | Option.none => false

/-- The `wait_for_trigger_first_frame` loop of record_video (lines 291-306):
pulls are retried unconditionally (incomplete frames are released, Spinnaker
exceptions are swallowed) until the first complete frame, which is appended
(frames_written = 1, started = True).  Returns the writer actions performed
and whether the loop exited within the given pull sequence. -/
def waitFirstFrame : List Pull → List Action × Bool
  | [] => ([], false)
  | Pull.frame :: _ => ([Action.append], true)
  | _ :: rest => waitFirstFrame rest

/-- The triggered RECORDING loop of record_video (lines 347-387).
State threaded as in the source: `ls` is line_status, `started`, `ct` is
consecutive_timeouts, `frames` is frames_written.  Each iteration checks
`line_status is False`, then the safety cap, then pulls.  A successful pull
resets consecutive_timeouts to 0; a complete frame is appended and the line
status is refreshed; a timeout increments consecutive_timeouts and breaks
once `started and consecutive_timeouts >= 3`.  Returns the append actions
performed and, if the loop broke within the given steps, the stop reason,
the elapsed time at the breaking iteration, and frames_written. -/
def trigLoop (maxS : Option ℚ) (ls : Option Bool) (started : Bool)
    (ct frames : Nat) : List TrigStep → List Action × Option (StopReason × ℚ × Nat)
  | [] => ([], Option.none)
  | s :: rest =>
      if ls = some false then ([], some (StopReason.lineLow, s.t, frames))
      else if capReached maxS s.t then ([], some (StopReason.safetyCap, s.t, frames))
      else
        match s.pull with
        | Pull.incomplete => trigLoop maxS s.lineAfter started 0 frames rest
        | Pull.frame =>
            let r := trigLoop maxS s.lineAfter started 0 (frames + 1) rest
            (Action.append :: r.1, r.2)
        | Pull.timeout =>
            if started = true ∧ 3 ≤ ct + 1 then ([], some (StopReason.timeouts, s.t, frames))
            else trigLoop maxS s.lineAfter started (ct + 1) frames rest

/-- The FREE-RUN loop of record_video (lines 316-327): while
frames_written < target_frames, pull; incomplete frames and Spinnaker
exceptions are both retried with no bound; complete frames are appended.
Returns the append actions and `some frames_written` if the loop condition
became false within the given pulls, `none` if the loop was still running
when the pulls ran out. -/
def freeRunLoop (target : Nat) : Nat → List Pull → List Action × Option Nat
  | frames, pulls =>
      if target ≤ frames then ([], some frames)
      else
        match pulls with
        | [] => ([], Option.none)
        | Pull.frame :: rest =>
            let r := freeRunLoop target (frames + 1) rest
            (Action.append :: r.1, r.2)
        | _ :: rest => freeRunLoop target frames rest

/-- record_video with wait_for_trigger_first_frame=True and
cfg.stop_on_falling=True (the triggered path): open the recorder, run the
trigger-wait loop, then the triggered RECORDING loop with started=True,
consecutive_timeouts=0, frames_written=1, and finally recorder.Close().
`initLine` is the read_line_status value taken before the loop (line 341).
The result is `none` when the corresponding Python loop was still running
after consuming the supplied camera events, in which case Close was not
reached. -/
def recordVideoTrig (maxS : Option ℚ) (waitPulls : List Pull)
    (initLine : Option Bool) (steps : List TrigStep) :
    List Action × Option (StopReason × ℚ × Nat) :=
  let w := waitFirstFrame waitPulls
  if w.2 then
    let r := trigLoop maxS initLine true 0 1 steps
    match r.2 with
    | some res => (Action.openRec :: w.1 ++ r.1 ++ [Action.close], some res)
    | Option.none => (Action.openRec :: w.1 ++ r.1, Option.none)
  else (Action.openRec :: w.1, Option.none)

/-- record_video with wait_for_trigger_first_frame=False (free-run path):
open the recorder, run the free-run loop from frames_written=0, and close.
Returns `none` before Close when the loop outlived the supplied pulls. -/
def recordVideoFree (target : Nat) (pulls : List Pull) :
    List Action × Option Nat :=
  let r := freeRunLoop target 0 pulls
  match r.2 with
  | some n => (Action.openRec :: r.1 ++ [Action.close], some n)
  | Option.none => (Action.openRec :: r.1, Option.none)

example : waitFirstFrame [Pull.timeout, Pull.frame] = ([Action.append], true) := by decide
example : freeRunLoop 2 0 [Pull.frame, Pull.timeout, Pull.frame]
    = ([Action.append, Action.append], some 2) := by decide

/-- Decimal digit character, as produced by Python's `%02d` formatting. -/
def digitChar : Nat → Char
  | 0 => '0'
  | 1 => '1'
  | 2 => '2'
  | 3 => '3'
  | 4 => '4'
  | 5 => '5'
  | 6 => '6'
  | 7 => '7'
  | 8 => '8'
  | _ => '9'

/-- Numeric value of a digit character, as Python's `int` on a `\d` match:
the code point minus 48. -/
def digitVal (c : Char) : Nat := c.toNat - 48

/-- Value of the two-digit group captured by `A(?P<num>\d{2})`. -/
def twoDigitVal (d1 d2 : Char) : Nat := digitVal d1 * 10 + digitVal d2

/-- Python `f".\x7bnew_num:02d\x7d"`: two zero-padded decimal digits for
numbers below 100, the full decimal expansion otherwise. -/
def pad2 (n : Nat) : List Char :=
  if n < 100 then [digitChar (n / 10), digitChar (n % 10)]
  else Nat.toDigits 10 n

/-- The regex `_SUFFIX_RE = ^(?P<base>.*)A(?P<num>\d{2})$` applied to the
base prefix: a match happens exactly when the name ends in the letter A
followed by two decimal digits; the greedy `.*` makes the base everything
before those last three characters. -/
def suffixMatch (s : List Char) : Option (List Char × Nat) :=
  match s.reverse with
  | d2 :: d1 :: 'A' :: rest =>
      if d1.isDigit && d2.isDigit then some (rest.reverse, twoDigitVal d1 d2)
      else Option.none
  | _ => Option.none

/-- The per-file regex match of next_2p_name:
`re.escape(base) + "A(?P<num>\d\x7b2\x7d)" + re.escape(ext) + "$"` matched
from the start of the filename.  The filename matches exactly when it is
literally base, then A, then two decimal digits, then the extension, and
the captured value is the two-digit number. -/
def fileCounter (base ext fn : List Char) : Option Nat :=
  if fn.take base.length = base then
    match fn.drop base.length with
    | 'A' :: d1 :: d2 :: tail =>
        if d1.isDigit && d2.isDigit && tail = ext then some (twoDigitVal d1 d2)
        else Option.none
    | _ => Option.none
  else Option.none

/-- One iteration of the scan loop of next_2p_name (lines 64-67):
`max_num = max(max_num, int(mm.group("num")))` when the filename matches,
the accumulator unchanged otherwise. -/
def scanStep (base ext : List Char) (acc : Nat) (fn : List Char) : Nat :=
  match fileCounter base ext fn with
  | some n => max acc n
  | Option.none => acc

/-- The scan loop of next_2p_name (lines 63-67): fold over the directory
listing, keeping the maximum captured two-digit counter, starting at 0. -/
def scanMax (dirFiles : List (List Char)) (base ext : List Char) : Nat :=
  dirFiles.foldl (scanStep base ext) 0

/-- The base part used by next_2p_name: the prefix with a trailing A##
stripped when `_SUFFIX_RE` matches, the whole prefix otherwise. -/
def parsedBase (basePref : List Char) : List Char :=
  match suffixMatch basePref with
  | some (b, _) => b
  | Option.none => basePref

/-- The start_num of next_2p_name: the embedded two-digit counter when
`_SUFFIX_RE` matches the prefix, 1 otherwise. -/
def parsedStart (basePref : List Char) : Nat :=
  match suffixMatch basePref with
  | some (_, n) => n
  | Option.none => 1

/-- The counter chosen by next_2p_name:
`max(max(scanned counters), start_num - 1) + 1`.  (For start_num = 0 the
Python `start_num - 1 = -1` is absorbed by the max against a value ≥ 0,
which truncated subtraction reproduces.) -/
def nextCounter (dirFiles : List (List Char)) (basePref ext : List Char) : Nat :=
  max (scanMax dirFiles (parsedBase basePref) ext) (parsedStart basePref - 1) + 1

/-- next_2p_name (Heart_tracking_2.py lines 42-75): returns
(stem, filename) where the stem is base ++ A ++ the zero-padded chosen
counter and the filename appends the extension.  The directory is the list
of filenames that `os.listdir(dest_dir)` returns; the os.makedirs side
effect and the dest_dir path join have no bearing on the produced names. -/
def next_2p_name (dirFiles : List (List Char)) (basePref ext : List Char) :
    List Char × List Char :=
  let stem := parsedBase basePref ++ 'A' :: pad2 (nextCounter dirFiles basePref ext)
  (stem, stem ++ ext)

example : next_2p_name [] [ 'x', '_'] [ '.', 'a', 'v', 'i']
    = ([ 'x', '_', 'A', '0', '1'], [ 'x', '_', 'A', '0', '1', '.', 'a', 'v', 'i']) := by decide
example : suffixMatch [ 'f', 'A', '0', '5'] = some ([ 'f'], 5) := by decide

/-- Trigger edges reported by the pollers: no edge, a low-to-high
transition, or a high-to-low transition. -/
inductive Edge
  | noEdge
  | rising
  | falling
  deriving DecidableEq, Repr

/-- One poll of the trigger-line edge detection shared by
NIRiseOnlyTrigger.check_trigger (rising: `above and not self._prev_above`,
with a None previous state producing no edge and only recording the
sample) and stop_on_fall (falling: `(not above) and state["prev_above"]`,
same None guard).  A sample of None models read_line_status returning None
(line level unreadable), which Heart_tracking_2.py stores in place of the
previous level and which can never satisfy either comparison. -/
def edgeStep (prev sample : Option Bool) : Option Bool × Edge :=
  match sample with
  | Option.none => (Option.none, Edge.noEdge)
  | some s =>
      match prev with
      | Option.none => (some s, Edge.noEdge)
      | some p =>
          if s && !p then (some s, Edge.rising)
          else if !s && p then (some s, Edge.falling)
          else (some s, Edge.noEdge)

/-- Repeated polling from a given previous state: the edge emitted at each
sample of the list, threading the stored previous state. -/
def edgeRun (prev : Option Bool) : List (Option Bool) → List Edge
  | [] => []
  | x :: xs => (edgeStep prev x).2 :: edgeRun (edgeStep prev x).1 xs

example : edgeRun Option.none [some false, some true] = [Edge.noEdge, Edge.rising] := by decide

/-- The FLIRCameraController state touched by stop_recording
(Heart_tracking_2p.py): the recording flag, the cv2.VideoWriter handle
(None or an opaque handle), and the counter used to build the next
filename. -/
structure ControllerState where
  recording : Bool
  video_writer : Option Nat
  current_recording_number : Nat
  deriving DecidableEq, Repr

/-- FLIRCameraController.stop_recording (lines 386-400): an early return
while not recording; otherwise clear the flag, release the writer if one
is set (returning how many release calls happened) and null it, and
increment current_recording_number. -/
def stop_recording (s : ControllerState) : ControllerState × Nat :=
  if s.recording = false then (s, 0)
  else
    match s.video_writer with
    | some _ =>
        ({ recording := false, video_writer := Option.none,
           current_recording_number := s.current_recording_number + 1 }, 1)
    | Option.none =>
        ({ recording := false, video_writer := Option.none,
           current_recording_number := s.current_recording_number + 1 }, 0)

/-- A sequence of n successive stop_recording calls, accumulating the
total number of VideoWriter.release calls made. -/
def stopRepeat : Nat → ControllerState → ControllerState × Nat
  | 0, s => (s, 0)
  | n + 1, s =>
      ((stopRepeat n (stop_recording s).1).1,
       (stop_recording s).2 + (stopRepeat n (stop_recording s).1).2)

example : stopRepeat 3 ⟨true, some 0, 4⟩ = (⟨false, Option.none, 5⟩, 1) := by decide

/-- The line_status value held by the triggered loop after consuming a list
of steps: the lineAfter of the last step, or the incoming value when no
step was consumed. -/
def endLine (ls : Option Bool) : List TrigStep → Option Bool
  | [] => ls
  | s :: rest => endLine s.lineAfter rest

/-- A directory holding exactly the recordings base A01 .. base A0N
(zero-padded) with the given extension. -/
def seqFiles (base ext : List Char) (N : Nat) : List (List Char) :=
  (List.range N).map (fun i => base ++ 'A' :: (pad2 (i + 1) ++ ext))

/-- The base name used in the spec scenarios, trial underscore. -/
def trialBase : List Char := [ 't', 'r', 'i', 'a', 'l', '_']

/-- The avi extension with its leading dot. -/
def aviExt : List Char := [ '.', 'a', 'v', 'i']

/-- The filename trial underscore A01 dot avi. -/
def trialA01avi : List Char :=
  [ 't', 'r', 'i', 'a', 'l', '_', 'A', '0', '1', '.', 'a', 'v', 'i']

/-- A base prefix that already embeds the counter 05: fooA05. -/
def fooA05 : List Char := [ 'f', 'o', 'o', 'A', '0', '5']

/-- The name the original C4 claim would predict: fooA06. -/
def fooA06 : List Char := [ 'f', 'o', 'o', 'A', '0', '6']

/-- An on-disk recording fooA03.avi with a counter below the embedded 05. -/
def fooA03avi : List Char := [ 'f', 'o', 'o', 'A', '0', '3', '.', 'a', 'v', 'i']

/-- The on-disk recording xA99.avi, the last two-digit counter. -/
def xA99avi : List Char := [ 'x', 'A', '9', '9', '.', 'a', 'v', 'i']

/-- The on-disk recording xA100.avi: its three-digit counter is invisible
to the two-digit scan of next_2p_name. -/
def xA100avi : List Char := [ 'x', 'A', '1', '0', '0', '.', 'a', 'v', 'i']

end TwoP

namespace TwoP

/-! ## Helper lemmas -/

theorem digitChar_isDigit (d : Nat) : (digitChar d).isDigit = true := by
  unfold digitChar; split <;> decide

theorem digitVal_digitChar (d : Nat) (hd : d ≤ 9) : digitVal (digitChar d) = d := by
  interval_cases d <;> decide

theorem twoDigitVal_pad2 (k : Nat) (hk : k < 100) :
    pad2 k = [digitChar (k / 10), digitChar (k % 10)] ∧
      twoDigitVal (digitChar (k / 10)) (digitChar (k % 10)) = k := by
  constructor
  · unfold pad2; rw [if_pos hk]
  · unfold twoDigitVal
    rw [digitVal_digitChar (k / 10) (by omega), digitVal_digitChar (k % 10) (by omega)]
    omega

theorem fileCounter_eval (base ext : List Char) (k : Nat) (hk : k < 100) :
    fileCounter base ext (base ++ 'A' :: (pad2 k ++ ext)) = some k := by
  obtain ⟨hpad, hval⟩ := twoDigitVal_pad2 k hk
  unfold fileCounter
  rw [hpad]
  rw [List.take_left, if_pos rfl, List.drop_left]
  simp [digitChar_isDigit, hval]

theorem foldl_scanStep_acc (base ext : List Char) (l : List (List Char)) :
    ∀ a : Nat, l.foldl (scanStep base ext) a = max a (l.foldl (scanStep base ext) 0) := by
  induction l with
  | nil => intro a; simp
  | cons fn l ih =>
      intro a
      rw [List.foldl_cons, List.foldl_cons, ih (scanStep base ext a fn),
        ih (scanStep base ext 0 fn)]
      unfold scanStep
      cases fileCounter base ext fn
      · simp
      · simp
        omega

theorem scanMax_cons (base ext fn : List Char) (l : List (List Char)) :
    scanMax (fn :: l) base ext = max (scanStep base ext 0 fn) (scanMax l base ext) := by
  unfold scanMax
  rw [List.foldl_cons, foldl_scanStep_acc]

theorem scanMax_ge (base ext : List Char) (l : List (List Char)) :
    ∀ fn ∈ l, ∀ m : Nat, fileCounter base ext fn = some m → m ≤ scanMax l base ext := by
  induction l with
  | nil => intro fn h; simp at h
  | cons g l ih =>
      intro fn hfn m hm
      rw [scanMax_cons]
      rcases List.mem_cons.1 hfn with h | h
      · subst h
        unfold scanStep
        rw [hm]
        simp
      · exact le_trans (ih fn h m hm) (le_max_right _ _)

theorem scanMax_le (base ext : List Char) (l : List (List Char)) (K : Nat)
    (h : ∀ fn ∈ l, ∀ m : Nat, fileCounter base ext fn = some m → m ≤ K) :
    scanMax l base ext ≤ K := by
  induction l with
  | nil => simp [scanMax]
  | cons g l ih =>
      rw [scanMax_cons]
      have h1 : scanStep base ext 0 g ≤ K := by
        unfold scanStep
        cases hg : fileCounter base ext g
        · simp
        · simpa using h g (List.mem_cons_self g l) _ hg
      have h2 : scanMax l base ext ≤ K :=
        ih fun fn hfn m hm => h fn (List.mem_cons_of_mem g hfn) m hm
      omega

theorem scanMax_seqFiles (base ext : List Char) (N : Nat) (hN : N ≤ 99) :
    scanMax (seqFiles base ext N) base ext = N := by
  induction N with
  | zero => simp [seqFiles, scanMax]
  | succ n ih =>
      unfold seqFiles
      rw [List.range_succ, List.map_append]
      unfold scanMax
      rw [List.foldl_append]
      have hmax : (((List.range n).map
          (fun i => base ++ 'A' :: (pad2 (i + 1) ++ ext))).foldl (scanStep base ext) 0) = n := by
        have := ih (by omega)
        simpa [seqFiles, scanMax] using this
      rw [hmax]
      simp only [List.map_cons, List.map_nil, List.foldl_cons, List.foldl_nil]
      unfold scanStep
      rw [fileCounter_eval base ext (n + 1) (by omega)]
      simp only []
      omega

/-! ## Claim theorems about the sequence namer -/

/-- C3: on a directory whose matching files are exactly base A01 .. base A0N
(with the given extension), and a base prefix that does not itself end in a
counter suffix, next_2p_name returns the stem base A followed by the
zero-padded counter N+1. -/
theorem c3_next_in_sequence (base ext : List Char) (N : Nat)
    (hbase : suffixMatch base = Option.none) (hN : N ≤ 99) :
    (next_2p_name (seqFiles base ext N) base ext).1 = base ++ 'A' :: pad2 (N + 1) := by
  unfold next_2p_name nextCounter parsedBase parsedStart
  rw [hbase]
  rw [scanMax_seqFiles base ext N hN]
  norm_num

/-- C3 witness: with files trA01.avi and trA02.avi on disk and base prefix
tr, the namer returns trA03. -/
theorem c3_next_in_sequence_witness :
    (next_2p_name (seqFiles [ 't', 'r'] aviExt 2) [ 't', 'r'] aviExt).1
      = [ 't', 'r'] ++ 'A' :: pad2 3 :=
  c3_next_in_sequence [ 't', 'r'] aviExt 2 (by decide) (by decide)

/-- C4 counterexample: with an empty directory and base prefix fooA05
(embedded counter 5, which exceeds every on-disk counter), next_2p_name
returns the stem fooA05 itself, not fooA06 as the claim (embedded
counter + 1) predicts. -/
theorem c4_counterexample :
    (next_2p_name [] fooA05 aviExt).1 = fooA05 ∧
      (next_2p_name [] fooA05 aviExt).1 ≠ fooA06 := by
  constructor <;> decide

/-- C4 amended: if the base prefix embeds a counter n ≥ 1 and n exceeds
every counter found on disk for the stripped base and extension, the
returned stem carries counter n itself (the code comment says respect it),
not n + 1. -/
theorem c4_embedded_counter (dirFiles : List (List Char))
    (basePref ext base : List Char) (n : Nat)
    (hm : suffixMatch basePref = some (base, n)) (hn : 1 ≤ n)
    (hd : ∀ fn ∈ dirFiles, (fileCounter base ext fn).getD 0 < n) :
    (next_2p_name dirFiles basePref ext).1 = base ++ 'A' :: pad2 n := by
  unfold next_2p_name nextCounter parsedBase parsedStart
  rw [hm]
  have hscan : scanMax dirFiles base ext ≤ n - 1 := by
    apply scanMax_le
    intro fn hfn m hmm
    have := hd fn hfn
    rw [hmm] at this
    simp at this
    omega
  have : max (scanMax dirFiles base ext) (n - 1) + 1 = n := by omega
  rw [this]

/-- C4 amended witness: with fooA03.avi on disk and base prefix fooA05,
the namer returns the stem fooA05. -/
theorem c4_embedded_counter_witness :
    (next_2p_name [fooA03avi] fooA05 aviExt).1 = [ 'f', 'o', 'o'] ++ 'A' :: pad2 5 :=
  c4_embedded_counter [fooA03avi] fooA05 aviExt [ 'f', 'o', 'o'] 5
    (by decide) (by decide) (by decide)

/-- C2 counterexample: with xA99.avi and xA100.avi both on disk (the
latter's three-digit counter is invisible to the two-digit scan), base
prefix x and extension .avi, next_2p_name returns xA100.avi, which is a
file that already exists in the directory at call time. -/
theorem c2_counterexample :
    (next_2p_name [xA99avi, xA100avi] [ 'x'] aviExt).2 ∈ [xA99avi, xA100avi] := by
  decide

/-- C2 amended: as long as the chosen counter stays in the two-digit range
(at most 99), the returned name differs from every file existing in the
directory at call time, and creating the returned file makes the next call
choose exactly the successor counter, so counters are monotonically
increasing and never reused; at the 99 to 100 rollover the returned name
can collide with an existing file and counters can repeat. -/
theorem c2_unique_and_monotone (dirFiles : List (List Char))
    (basePref ext : List Char)
    (h : nextCounter dirFiles basePref ext ≤ 99) :
    (next_2p_name dirFiles basePref ext).2 ∉ dirFiles ∧
      nextCounter ((next_2p_name dirFiles basePref ext).2 :: dirFiles) basePref ext
        = nextCounter dirFiles basePref ext + 1 := by
  have hform : (next_2p_name dirFiles basePref ext).2
      = parsedBase basePref ++ 'A' ::
          (pad2 (nextCounter dirFiles basePref ext) ++ ext) := by
    unfold next_2p_name
    simp
  have hcnt : fileCounter (parsedBase basePref) ext
      (next_2p_name dirFiles basePref ext).2 = some (nextCounter dirFiles basePref ext) := by
    rw [hform]
    exact fileCounter_eval _ _ _ (by omega)
  have hgt : scanMax dirFiles (parsedBase basePref) ext
      < nextCounter dirFiles basePref ext := by
    unfold nextCounter
    omega
  constructor
  · intro hmem
    have := scanMax_ge (parsedBase basePref) ext dirFiles _ hmem _ hcnt
    omega
  · have hstep : scanStep (parsedBase basePref) ext 0 ((next_2p_name dirFiles basePref ext).2)
        = max (scanMax dirFiles (parsedBase basePref) ext) (parsedStart basePref - 1) + 1 := by
      unfold scanStep
      rw [hcnt]
      unfold nextCounter
      simp
    unfold nextCounter
    rw [scanMax_cons, hstep]
    omega

/-- C2 amended witness: with only trial underscore A01.avi on disk, the
returned name is new, and after creating it the chosen counter advances
from 2 to 3. -/
theorem c2_unique_and_monotone_witness :
    (next_2p_name [trialA01avi] trialBase aviExt).2 ∉ [trialA01avi] ∧
      nextCounter ((next_2p_name [trialA01avi] trialBase aviExt).2 :: [trialA01avi])
          trialBase aviExt
        = nextCounter [trialA01avi] trialBase aviExt + 1 :=
  c2_unique_and_monotone [trialA01avi] trialBase aviExt (by decide)

/-- C8: on an empty directory with base trial underscore and extension
.avi the namer yields trial underscore A01.avi, and a second call with the
disk still unchanged (no file created in between) yields the very same
name: the result is a function of the arguments and the on-disk listing
only. -/
theorem c8_idempotent_no_create :
    (next_2p_name [] trialBase aviExt).2 = trialA01avi ∧
      (∀ d : List (List Char), d = [] →
        (next_2p_name d trialBase aviExt).2 = (next_2p_name [] trialBase aviExt).2) := by
  constructor
  · decide
  · intro d hd
    rw [hd]

/-- C8 witness: the second call on the still-empty directory again returns
trial underscore A01.avi. -/
theorem c8_idempotent_no_create_witness :
    (next_2p_name [] trialBase aviExt).2 = trialA01avi :=
  (c8_idempotent_no_create.2 [] rfl).trans c8_idempotent_no_create.1

/-! ## Claim theorems about the edge detector -/

/-- C5: the first sample polled after (re)arming produces no edge; over the
sample sequence None, low, low, high, high, low the emitted edges are
none, none, none, rising, none, falling; and against a stored previous
level, rising is reported exactly when the previous level was low and the
current is high, falling exactly when the previous was high and the
current is low. -/
theorem c5_edge_detector :
    (∀ b : Bool, (edgeStep Option.none (some b)).2 = Edge.noEdge) ∧
      edgeRun Option.none
          [Option.none, some false, some false, some true, some true, some false]
        = [Edge.noEdge, Edge.noEdge, Edge.noEdge, Edge.rising, Edge.noEdge, Edge.falling] ∧
      (∀ p s : Bool,
        ((edgeStep (some p) (some s)).2 = Edge.rising ↔ p = false ∧ s = true)) ∧
      (∀ p s : Bool,
        ((edgeStep (some p) (some s)).2 = Edge.falling ↔ p = true ∧ s = false)) := by
  refine ⟨?_, ?_, ?_, ?_⟩ <;> decide

/-! ## Claim theorems about FLIRCameraController.stop_recording -/

theorem stop_recording_recording_false (s : ControllerState) :
    (stop_recording s).1.recording = false := by
  unfold stop_recording
  by_cases h : s.recording = false
  · rw [if_pos h]; exact h
  · rw [if_neg h]; cases s.video_writer <;> rfl

theorem stopRepeat_stopped (n : Nat) :
    ∀ s : ControllerState, s.recording = false → stopRepeat n s = (s, 0) := by
  induction n with
  | zero => intro s _; rfl
  | succ m ih =>
      intro s hs
      have hstop : stop_recording s = (s, 0) := by unfold stop_recording; rw [if_pos hs]
      unfold stopRepeat
      rw [hstop]
      simp [ih s hs]

/-- C10: stop_recording called while not recording returns immediately and
leaves the whole controller state (in particular video_writer and
current_recording_number) unchanged with no release; called while
recording with a live writer, it performs exactly one release, nulls
video_writer, clears the recording flag and increments
current_recording_number by exactly one; and any run of repeated
stop_recording calls performs at most one release in total. -/
theorem c10_stop_recording (s : ControllerState) :
    (s.recording = false → stop_recording s = (s, 0)) ∧
      (s.recording = true → s.video_writer.isSome = true →
        (stop_recording s).2 = 1 ∧
          (stop_recording s).1.video_writer = Option.none ∧
          (stop_recording s).1.current_recording_number
            = s.current_recording_number + 1 ∧
          (stop_recording s).1.recording = false) ∧
      (∀ n : Nat, (stopRepeat n s).2 ≤ 1) := by
  refine ⟨?_, ?_, ?_⟩
  · intro h; unfold stop_recording; rw [if_pos h]
  · intro h hw
    obtain ⟨w, hww⟩ := Option.isSome_iff_exists.1 hw
    unfold stop_recording
    rw [if_neg (by rw [h]; simp), hww]
    simp
  · intro n
    cases n with
    | zero => simp [stopRepeat]
    | succ m =>
        unfold stopRepeat
        rw [stopRepeat_stopped m (stop_recording s).1 (stop_recording_recording_false s)]
        have : (stop_recording s).2 ≤ 1 := by
          unfold stop_recording
          by_cases h : s.recording = false
          · rw [if_pos h]; simp
          · rw [if_neg h]; cases s.video_writer <;> simp
        simpa using this

/-- C10 witness: at the concrete state recording with a live writer and
counter 7, one stop call releases once and bumps the counter to 8, and five
repeated stop calls release at most once. -/
theorem c10_stop_recording_witness :
    (stop_recording ⟨true, some 0, 7⟩).2 = 1 ∧
      (stop_recording ⟨true, some 0, 7⟩).1.current_recording_number = 8 ∧
      (stopRepeat 5 ⟨true, some 0, 7⟩).2 ≤ 1 :=
  ⟨((c10_stop_recording ⟨true, some 0, 7⟩).2.1 rfl rfl).1,
    ((c10_stop_recording ⟨true, some 0, 7⟩).2.1 rfl rfl).2.2.1,
    (c10_stop_recording ⟨true, some 0, 7⟩).2.2 5⟩

/-! ## Helper lemmas about the recording loops -/

theorem waitFirstFrame_no_frame (ps : List Pull) (h : ∀ p ∈ ps, p ≠ Pull.frame) :
    waitFirstFrame ps = ([], false) := by
  induction ps with
  | nil => rfl
  | cons p rest ih =>
      cases p with
      | frame => exact absurd rfl (h Pull.frame (List.mem_cons_self _ _))
      | incomplete => exact ih fun q hq => h q (List.mem_cons_of_mem _ hq)
      | timeout => exact ih fun q hq => h q (List.mem_cons_of_mem _ hq)

theorem waitFirstFrame_frame (ps : List Pull) (h : Pull.frame ∈ ps) :
    waitFirstFrame ps = ([Action.append], true) := by
  induction ps with
  | nil => simp at h
  | cons p rest ih =>
      cases p with
      | frame => rfl
      | incomplete =>
          have : Pull.frame ∈ rest := by
            rcases List.mem_cons.1 h with h1 | h1
            · exact absurd h1 (by decide)
            · exact h1
          exact ih this
      | timeout =>
          have : Pull.frame ∈ rest := by
            rcases List.mem_cons.1 h with h1 | h1
            · exact absurd h1 (by decide)
            · exact h1
          exact ih this

theorem endLine_ne_low (l : List TrigStep) :
    ∀ ls : Option Bool, ls ≠ some false → (∀ s ∈ l, s.lineAfter ≠ some false) →
      endLine ls l ≠ some false := by
  induction l with
  | nil => intro ls hls _; exact hls
  | cons s rest ih =>
      intro ls _ hl
      exact ih s.lineAfter (hl s (List.mem_cons_self _ _))
        fun q hq => hl q (List.mem_cons_of_mem _ hq)

theorem trigLoop_frames (fs : List TrigStep) :
    ∀ (ls : Option Bool) (f : Nat) (rest : List TrigStep),
      (∀ s ∈ fs, s.pull = Pull.frame) → (∀ s ∈ fs, s.lineAfter ≠ some false) →
      ls ≠ some false →
      trigLoop Option.none ls true 0 f (fs ++ rest)
        = (List.replicate fs.length Action.append
              ++ (trigLoop Option.none (endLine ls fs) true 0 (f + fs.length) rest).1,
           (trigLoop Option.none (endLine ls fs) true 0 (f + fs.length) rest).2) := by
  induction fs with
  | nil => intro ls f rest _ _ _; simp [endLine]
  | cons s fs ih =>
      intro ls f rest hp hl hls
      have hps : s.pull = Pull.frame := hp s (List.mem_cons_self _ _)
      rw [List.cons_append]
      simp only [trigLoop]
      rw [if_neg hls]
      have hcap : capReached Option.none s.t = false := rfl
      rw [hcap]
      simp only [Bool.false_eq_true, if_false]
      rw [hps]
      simp only []
      rw [ih s.lineAfter (f + 1) rest
        (fun q hq => hp q (List.mem_cons_of_mem _ hq))
        (fun q hq => hl q (List.mem_cons_of_mem _ hq))
        (hl s (List.mem_cons_self _ _))]
      have harith : f + 1 + fs.length = f + (fs.length + 1) := by omega
      rw [harith]
      simp [endLine, List.replicate_succ]

theorem trigLoop_timeouts (ts : List TrigStep) (ls : Option Bool) (f : Nat)
    (hlen : 3 ≤ ts.length)
    (hp : ∀ s ∈ ts, s.pull = Pull.timeout)
    (hl : ∀ s ∈ ts, s.lineAfter ≠ some false)
    (hls : ls ≠ some false) :
    ∃ t : ℚ, trigLoop Option.none ls true 0 f ts = ([], some (StopReason.timeouts, t, f)) := by
  rcases ts with _ | ⟨s1, ts⟩
  · simp at hlen
  rcases ts with _ | ⟨s2, ts⟩
  · simp at hlen
  rcases ts with _ | ⟨s3, rest⟩
  · simp at hlen
  · refine ⟨s3.t, ?_⟩
    have hp1 : s1.pull = Pull.timeout := hp s1 (by simp)
    have hp2 : s2.pull = Pull.timeout := hp s2 (by simp)
    have hp3 : s3.pull = Pull.timeout := hp s3 (by simp)
    have hl1 : s1.lineAfter ≠ some false := hl s1 (by simp)
    have hl2 : s2.lineAfter ≠ some false := hl s2 (by simp)
    simp +decide [trigLoop, hp1, hp2, hp3, hl1, hl2, hls, capReached]

/-! ## Claim theorems about record_video -/

/-- C1: in a triggered recording where the camera delivers the first frame
on the start trigger, N-1 further complete frames (N ≥ 1 in total), and
then k ≥ 3 consecutive pull timeouts, while the trigger line never reads
LOW and no safety cap is set, record_video finalizes exactly once with
stop reason timeouts: the action trace contains exactly one recorder
Close, and the number of frames written (appends) equals N. -/
theorem c1_n_frames_then_timeouts (N k : Nat) (initLine : Option Bool)
    (fsteps tsteps : List TrigStep)
    (hN : 1 ≤ N) (hk : 3 ≤ k)
    (hfl : fsteps.length = N - 1) (hfp : ∀ s ∈ fsteps, s.pull = Pull.frame)
    (htl : tsteps.length = k) (htp : ∀ s ∈ tsteps, s.pull = Pull.timeout)
    (hlf : ∀ s ∈ fsteps, s.lineAfter ≠ some false)
    (hlt : ∀ s ∈ tsteps, s.lineAfter ≠ some false)
    (hinit : initLine ≠ some false) :
    (∃ t : ℚ, (recordVideoTrig Option.none [Pull.frame] initLine (fsteps ++ tsteps)).2
        = some (StopReason.timeouts, t, N)) ∧
      ((recordVideoTrig Option.none [Pull.frame] initLine (fsteps ++ tsteps)).1.count
          Action.close = 1) ∧
      ((recordVideoTrig Option.none [Pull.frame] initLine (fsteps ++ tsteps)).1.count
          Action.append = N) := by
  have hwait : waitFirstFrame [Pull.frame] = ([Action.append], true) := rfl
  have hloop := trigLoop_frames fsteps initLine 1 tsteps hfp hlf hinit
  have hend : endLine initLine fsteps ≠ some false :=
    endLine_ne_low fsteps initLine hinit hlf
  obtain ⟨t, hts⟩ := trigLoop_timeouts tsteps (endLine initLine fsteps)
    (1 + fsteps.length) (by omega) htp hlt hend
  have hframes : 1 + fsteps.length = N := by omega
  rw [hframes] at hts
  have hr : trigLoop Option.none initLine true 0 1 (fsteps ++ tsteps)
      = (List.replicate fsteps.length Action.append, some (StopReason.timeouts, t, N)) := by
    rw [hloop, hframes, hts]
    simp
  unfold recordVideoTrig
  rw [hwait]
  simp only [if_true]
  rw [hr]
  simp only []
  refine ⟨⟨t, rfl⟩, ?_, ?_⟩
  · simp [List.count_cons, List.count_append, List.count_replicate]
  · simp [List.count_cons, List.count_append, List.count_replicate]
    omega

/-- C1 witness: two frames (one on the trigger, one in the loop) followed
by three timeouts, with the line reading HIGH throughout, finalize once
with two frames written. -/
theorem c1_n_frames_then_timeouts_witness :
    (∃ t : ℚ, (recordVideoTrig Option.none [Pull.frame] (some true)
        ([⟨0, Pull.frame, some true⟩] ++
          [⟨0, Pull.timeout, some true⟩, ⟨0, Pull.timeout, some true⟩,
            ⟨0, Pull.timeout, some true⟩])).2
      = some (StopReason.timeouts, t, 2)) ∧
      ((recordVideoTrig Option.none [Pull.frame] (some true)
        ([⟨0, Pull.frame, some true⟩] ++
          [⟨0, Pull.timeout, some true⟩, ⟨0, Pull.timeout, some true⟩,
            ⟨0, Pull.timeout, some true⟩])).1.count Action.close = 1) ∧
      ((recordVideoTrig Option.none [Pull.frame] (some true)
        ([⟨0, Pull.frame, some true⟩] ++
          [⟨0, Pull.timeout, some true⟩, ⟨0, Pull.timeout, some true⟩,
            ⟨0, Pull.timeout, some true⟩])).1.count Action.append = 2) :=
  c1_n_frames_then_timeouts 2 3 (some true)
    [⟨0, Pull.frame, some true⟩]
    [⟨0, Pull.timeout, some true⟩, ⟨0, Pull.timeout, some true⟩,
      ⟨0, Pull.timeout, some true⟩]
    (by decide) (by decide) (by decide) (by decide) (by decide) (by decide)
    (by decide) (by decide) (by decide)

/-- C9: if every camera pull before the first complete frame fails (raises
or returns an incomplete image), the wait_for_trigger_first_frame loop of
record_video never exits — however many pulls are attempted, whatever
safety cap is configured, and whatever the loop steps after it would be —
so the recorder that was opened is never closed. -/
theorem c9_wait_loop_never_exits (maxS : Option ℚ) (waitPulls : List Pull)
    (initLine : Option Bool) (steps : List TrigStep)
    (h : ∀ p ∈ waitPulls, p ≠ Pull.frame) :
    (recordVideoTrig maxS waitPulls initLine steps).2 = Option.none ∧
      Action.openRec ∈ (recordVideoTrig maxS waitPulls initLine steps).1 ∧
      Action.close ∉ (recordVideoTrig maxS waitPulls initLine steps).1 := by
  have hw := waitFirstFrame_no_frame waitPulls h
  unfold recordVideoTrig
  rw [hw]
  simp

/-- C9 witness: with a safety cap of 1 second configured and four failing
pulls (three timeouts and an incomplete frame), record_video is still in
the waiting loop and the recorder is open and unclosed. -/
theorem c9_wait_loop_never_exits_witness :
    (recordVideoTrig (some 1)
        [Pull.timeout, Pull.timeout, Pull.timeout, Pull.incomplete]
        (some true) []).2 = Option.none ∧
      Action.openRec ∈ (recordVideoTrig (some 1)
        [Pull.timeout, Pull.timeout, Pull.timeout, Pull.incomplete]
        (some true) []).1 ∧
      Action.close ∉ (recordVideoTrig (some 1)
        [Pull.timeout, Pull.timeout, Pull.timeout, Pull.incomplete]
        (some true) []).1 :=
  c9_wait_loop_never_exits (some 1)
    [Pull.timeout, Pull.timeout, Pull.timeout, Pull.incomplete]
    (some true) [] (by decide)

/-- C7 counterexample: in the free-run RECORDING loop of record_video,
fifty consecutive frame-pull timeouts in a row do not make the loop exit:
with a target of 10 frames and none yet written, the loop has swallowed
all fifty timeouts and is still waiting for another pull, contradicting
the claim that every mode bounds consecutive timeouts by a small number
and then treats the stream as stopped. -/
theorem c7_counterexample :
    freeRunLoop 10 0 (List.replicate 50 Pull.timeout) = ([], Option.none) := by
  decide

/-- C7 amended: only the triggered RECORDING loop bounds consecutive
timeouts — once the stream has started, it exits within at most 3
consecutive frame-pull timeouts — while the free-run loop retries
timeouts indefinitely: no number of consecutive timeouts makes it stop
while the frame target is unmet. -/
theorem c7_timeout_bound :
    (∀ (maxS : Option ℚ) (ls : Option Bool) (f : Nat) (s1 s2 s3 : TrigStep)
        (rest : List TrigStep),
      s1.pull = Pull.timeout → s2.pull = Pull.timeout → s3.pull = Pull.timeout →
      ((trigLoop maxS ls true 0 f (s1 :: s2 :: s3 :: rest)).2).isSome = true) ∧
      (∀ (target f k : Nat), f < target →
        freeRunLoop target f (List.replicate k Pull.timeout) = ([], Option.none)) := by
  constructor
  · intro maxS ls f s1 s2 s3 rest hp1 hp2 hp3
    simp only [trigLoop, hp1, hp2, hp3]
    by_cases h1 : ls = some false
    · simp [h1]
    by_cases hc1 : capReached maxS s1.t
    · simp [h1, hc1]
    simp only [h1, hc1, if_false, Bool.false_eq_true]
    rw [if_neg (by decide)]
    by_cases h2 : s1.lineAfter = some false
    · simp [h2]
    by_cases hc2 : capReached maxS s2.t
    · simp [h1, h2, hc2]
    simp only [h2, hc2, if_false, Bool.false_eq_true]
    rw [if_neg (by decide)]
    by_cases h3 : s2.lineAfter = some false
    · simp [h3]
    by_cases hc3 : capReached maxS s3.t
    · simp [h2, h3, hc3]
    simp only [h3, hc3, if_false, Bool.false_eq_true]
    rw [if_pos (by decide)]
    rfl
  · intro target f k hf
    induction k generalizing f with
    | zero =>
        unfold freeRunLoop
        rw [if_neg (by omega)]
        rfl
    | succ m ih =>
        rw [List.replicate_succ]
        unfold freeRunLoop
        rw [if_neg (by omega)]
        exact ih f hf

/-- C7 amended witness: the triggered loop exits within three consecutive
timeouts at a concrete input, while the free-run loop is still retrying
after forty consecutive timeouts. -/
theorem c7_timeout_bound_witness :
    ((trigLoop Option.none (some true) true 0 1
        [⟨0, Pull.timeout, some true⟩, ⟨0, Pull.timeout, some true⟩,
          ⟨0, Pull.timeout, some true⟩]).2).isSome = true ∧
      freeRunLoop 10 0 (List.replicate 40 Pull.timeout) = ([], Option.none) :=
  ⟨c7_timeout_bound.1 Option.none (some true) 1
      ⟨0, Pull.timeout, some true⟩ ⟨0, Pull.timeout, some true⟩
      ⟨0, Pull.timeout, some true⟩ [] rfl rfl rfl,
    c7_timeout_bound.2 10 0 40 (by decide)⟩

theorem trigLoop_cap (T poll : ℚ) (steps : List TrigStep) :
    ∀ (ls : Option Bool) (ct f : Nat),
      ls ≠ some false →
      (∀ s ∈ steps, s.pull ≠ Pull.timeout) →
      (∀ s ∈ steps, s.lineAfter ≠ some false) →
      (∀ s₀ : TrigStep, steps.head? = some s₀ → s₀.t < T + poll) →
      List.Chain' (fun a b => b.t ≤ a.t + poll) steps →
      (∃ s ∈ steps, T ≤ s.t) →
      ∃ t : ℚ, ∃ n : Nat,
        (trigLoop (some T) ls true ct f steps).2 = some (StopReason.safetyCap, t, n)
          ∧ T ≤ t ∧ t < T + poll := by
  induction steps with
  | nil => intro ls ct f _ _ _ _ _ hex; simp at hex
  | cons s rest ih =>
      intro ls ct f hls hp hl hhead hchain hex
      by_cases hT : T ≤ s.t
      · refine ⟨s.t, f, ?_, hT, hhead s rfl⟩
        simp only [trigLoop]
        rw [if_neg hls]
        have hcap : capReached (some T) s.t = true := by
          unfold capReached
          exact decide_eq_true hT
        rw [hcap]
        rfl
      · push_neg at hT
        have hncap : capReached (some T) s.t = false := by
          unfold capReached
          exact decide_eq_false (not_le.2 hT)
        have hrec := ih s.lineAfter
        have hl' : s.lineAfter ≠ some false := hl s (List.mem_cons_self _ _)
        have hp' : ∀ q ∈ rest, q.pull ≠ Pull.timeout :=
          fun q hq => hp q (List.mem_cons_of_mem _ hq)
        have hlrest : ∀ q ∈ rest, q.lineAfter ≠ some false :=
          fun q hq => hl q (List.mem_cons_of_mem _ hq)
        have hhead' : ∀ s₀ : TrigStep, rest.head? = some s₀ → s₀.t < T + poll := by
          intro s₀ hs₀
          cases rest with
          | nil => simp at hs₀
          | cons r rrest =>
              simp at hs₀
              have hR : r.t ≤ s.t + poll := (List.chain'_cons.1 hchain).1
              rw [← hs₀]
              calc r.t ≤ s.t + poll := hR
                _ < T + poll := by linarith
        have hchain' : List.Chain' (fun a b => b.t ≤ a.t + poll) rest := hchain.tail
        have hex' : ∃ q ∈ rest, T ≤ q.t := by
          obtain ⟨w, hw, hTw⟩ := hex
          rcases List.mem_cons.1 hw with h1 | h1
          · subst h1; linarith
          · exact ⟨w, h1, hTw⟩
        cases hsp : s.pull with
        | timeout => exact absurd hsp (hp s (List.mem_cons_self _ _))
        | incomplete =>
            obtain ⟨t, n, hres, hTt, htlt⟩ :=
              hrec 0 f hl' hp' hlrest hhead' hchain' hex'
            refine ⟨t, n, ?_, hTt, htlt⟩
            simp only [trigLoop]
            rw [if_neg hls, hncap, hsp]
            simpa using hres
        | frame =>
            obtain ⟨t, n, hres, hTt, htlt⟩ :=
              hrec 0 (f + 1) hl' hp' hlrest hhead' hchain' hex'
            refine ⟨t, n, ?_, hTt, htlt⟩
            simp only [trigLoop]
            rw [if_neg hls, hncap, hsp]
            simpa using hres

/-- C6: with a safety cap of T > 0 seconds configured, a start trigger
that delivers the first frame, a trigger line that never reads LOW and a
stream that never times out, the triggered recording stops with reason
safetyCap at an elapsed time (measured, as the code does, from record_video
entry at t0) that is at least T and strictly less than T plus one poll
interval, provided the first stop check happens within one poll interval
of the start, consecutive stop checks are at most one poll interval apart,
and the clock eventually reaches T. -/
theorem c6_safety_cap (T poll : ℚ) (waitPulls : List Pull)
    (initLine : Option Bool) (s₀ : TrigStep) (rest : List TrigStep)
    (hT : 0 < T)
    (hwait : Pull.frame ∈ waitPulls)
    (hinit : initLine ≠ some false)
    (hfirst : s₀.t ≤ poll)
    (hchain : List.Chain' (fun a b => b.t ≤ a.t + poll) (s₀ :: rest))
    (hpull : ∀ s ∈ s₀ :: rest, s.pull ≠ Pull.timeout)
    (hline : ∀ s ∈ s₀ :: rest, s.lineAfter ≠ some false)
    (hex : ∃ s ∈ s₀ :: rest, T ≤ s.t) :
    ∃ t : ℚ, ∃ n : Nat,
      (recordVideoTrig (some T) waitPulls initLine (s₀ :: rest)).2
          = some (StopReason.safetyCap, t, n) ∧ T ≤ t ∧ t < T + poll := by
  have hhead : ∀ q : TrigStep, (s₀ :: rest).head? = some q → q.t < T + poll := by
    intro q hq
    simp at hq
    rw [← hq]
    linarith
  obtain ⟨t, n, hres, hTt, htlt⟩ :=
    trigLoop_cap T poll (s₀ :: rest) initLine 0 1 hinit hpull hline hhead hchain hex
  refine ⟨t, n, ?_, hTt, htlt⟩
  unfold recordVideoTrig
  rw [waitFirstFrame_frame waitPulls hwait]
  simp only [if_true]
  rw [hres]

/-- C6 witness: cap T = 2, poll interval 1, stop checks at elapsed times
1 and 2 with frames arriving and the line HIGH: the session stops by
safety cap at time 2, inside the half-open window from 2 to 3. -/
theorem c6_safety_cap_witness :
    ∃ t : ℚ, ∃ n : Nat,
      (recordVideoTrig (some 2) [Pull.frame] (some true)
          [⟨1, Pull.frame, some true⟩, ⟨2, Pull.frame, some true⟩]).2
        = some (StopReason.safetyCap, t, n) ∧ (2 : ℚ) ≤ t ∧ t < 2 + 1 :=
  c6_safety_cap 2 1 [Pull.frame] (some true)
    ⟨1, Pull.frame, some true⟩ [⟨2, Pull.frame, some true⟩]
    (by norm_num) (by decide) (by decide) (by norm_num)
    (by simp [List.chain'_cons]; norm_num)
    (by decide) (by decide)
    ⟨⟨2, Pull.frame, some true⟩, by simp, by norm_num⟩

end TwoP
